import Mathlib

/-!
Shallow embedding of `TP2/planet_delivery.py`, the multi-agent planet
delivery simulation: planets spawn items, run Contract-Net-Protocol rounds
to allocate them to ships, and ships route over a stochastic road network.

Machine floats of the source are modelled as rationals (`ℚ`); the random
draws (`random.random()`, `random.choice`, `uuid.uuid1()`) are threaded as
explicit parameters or streams; Python exceptions (`KeyError`,
`ValueError`, `IndexError`, `AttributeError`) are modelled with `Except`.
-/

/-- `WAITING_TIME = 3` (source line 28). -/
def WAITING_TIME : Nat := 3

/-- `road_states = [0.0, 0.5, 1.0]` (source line 436). -/
def roadStates : List ℚ := [0, 1/2, 1]

/-! ## Python runtime values

Needed to model line 440 faithfully: the loop at line 437 iterates
`self.current_graph.edges.items()`, so the loop variable `state` is the
edge's *attribute dictionary* (for example `\x7b'distance': d\x7d`), not its
speed multiplier, and the comparison `n != state` compares a float with a
dictionary. -/

/-- A Python runtime value as far as the embedded fragments need: a float
(modelled as a rational) or an attribute dictionary. -/
inductive PyVal where
  | num (q : ℚ)
  | dict (entries : List (String × ℚ))
deriving DecidableEq

/-- Python `==` between runtime values: a float and a dictionary are never
equal. -/
def pyEq : PyVal → PyVal → Bool
  | .num a, .num b => a == b
  | .dict a, .dict b => a == b
  | _, _ => false

/-! ## `SpaceRoadNetwork.step` (source lines 434-443) -/

/-- The candidate list `[n for n in road_states if n != state]` of line 440,
where `state` is the value the loop variable actually holds. -/
def issueCandidates (state : PyVal) : List ℚ :=
  roadStates.filter (fun n => !pyEq (.num n) state)

/-- The two dictionary writes of lines 442-443: the new value is stored
under the directed pair `road` and under the reversed pair. -/
def writeBoth (sm : Nat × Nat → ℚ) (e : Nat × Nat) (v : ℚ) : Nat × Nat → ℚ :=
  fun d => if d = e ∨ d = (e.2, e.1) then v else sm d

/-- The edge loop of `SpaceRoadNetwork.step` over the enumerated edge list:
`issue i` tells whether the `random.random() < PROBA_ISSUE_ROAD` draw fired
for the `i`-th edge, and `pick i` is the index drawn by `random.choice`
among the candidates.  `dist e` is the edge's `distance` attribute, so the
attribute dictionary bound to the loop variable `state` is
`.dict [("distance", dist e)]`. -/
def roadStepAux (dist : Nat × Nat → ℚ) (issue : Nat → Bool) (pick : Nat → Nat) :
    List (Nat × (Nat × Nat)) → (Nat × Nat → ℚ) → Nat × Nat → ℚ
  | [], sm => sm
  | (i, e) :: rest, sm =>
    if issue i then
      let cands := issueCandidates (.dict [("distance", dist e)])
      roadStepAux dist issue pick rest (writeBoth sm e (cands.getD (pick i % cands.length) 0))
    else
      roadStepAux dist issue pick rest sm

/-- One tick of `SpaceRoadNetwork.step` acting on the speed-multiplier map. -/
def roadStep (edges : List (Nat × Nat)) (dist : Nat × Nat → ℚ)
    (issue : Nat → Bool) (pick : Nat → Nat) (sm : Nat × Nat → ℚ) : Nat × Nat → ℚ :=
  roadStepAux dist issue pick edges.enum sm

/-- The speed-multiplier setup of `SpaceRoadNetwork.__init__`
(source lines 427-431): every edge gets multiplier `1.0` in both
directions. -/
def smSetup : List (Nat × Nat) → (Nat × Nat → ℚ) → Nat × Nat → ℚ
  | [], sm => sm
  | e :: rest, sm => smSetup rest (writeBoth sm e 1)

/-- The road-network state the per-tick mutation acts on: the edge list and
distances (never written by `step`) and the speed-multiplier map. -/
structure RoadNet where
  edges : List (Nat × Nat)
  dist : Nat × Nat → ℚ
  sm : Nat × Nat → ℚ

/-- One tick of the environment agent: only the speed-multiplier map is
rewritten, the graph itself is untouched. -/
def roadNetTick (issue : Nat → Bool) (pick : Nat → Nat) (net : RoadNet) : RoadNet :=
  { net with sm := roadStep net.edges net.dist issue pick net.sm }

/-- The per-edge invariant of the speed map: each listed edge carries the
same multiplier in both directions, and that multiplier is one of the three
road states. -/
def edgeSymOk (edges : List (Nat × Nat)) (sm : Nat × Nat → ℚ) : Prop :=
  ∀ e ∈ edges, sm e = sm (e.2, e.1) ∧ sm e ∈ roadStates

/-! ## `Item` (source lines 68-98) -/

/-- The `Item` record (source lines 74-92); equality and hash of the Python
class use `uid` alone (lines 94-98). -/
structure Item where
  a : ℚ
  b : ℚ
  c : ℚ
  x : ℚ
  y : ℚ
  uid : Nat
deriving DecidableEq

/-- Python truthiness test `not v` applied to an optional float argument:
`None` and `0.0` are both falsy. -/
def optFalsy : Option ℚ → Bool
  | none => true
  | some q => q == 0

/-- Python truthiness test `not v` applied to the optional integer id:
`None` and `0` are both falsy. -/
def optFalsyNat : Option Nat → Bool
  | none => true
  | some u => u == 0

/-- `Item.__init__` (source lines 74-92).  The draws `ra rb rc` model the
successive `random.random()` calls and `ruid` models `int(uuid.uuid1())`;
each is consumed only when the corresponding argument is falsy. -/
def mkItem (x y : ℚ) (a? b? c? : Option ℚ) (uid? : Option Nat)
    (ra rb rc : ℚ) (ruid : Nat) : Item :=
  { a := if optFalsy a? then ra else a?.getD 0
    b := if optFalsy b? then rb else b?.getD 0
    c := if optFalsy c? then rc else c?.getD 0
    x := x
    y := y
    uid := if optFalsyNat uid? then ruid else uid?.getD 0 }

/-- The serialised item fields as carried in message bodies
(`json.dumps(item.__dict__)`). -/
structure ItemJson where
  a : ℚ
  b : ℚ
  c : ℚ
  x : ℚ
  y : ℚ
  uid : Nat
deriving DecidableEq

/-- `Item.from_json` (source lines 69-72): every stored field is passed
explicitly to the constructor. -/
def itemFromJson (j : ItemJson) (ra rb rc : ℚ) (ruid : Nat) : Item :=
  mkItem j.x j.y (some j.a) (some j.b) (some j.c) (some j.uid) ra rb rc ruid

/-- `item.__dict__` as serialised into a message body. -/
def itemToJson (it : Item) : ItemJson :=
  ⟨it.a, it.b, it.c, it.x, it.y, it.uid⟩

/-! ## CNP round timing (source lines 309-315) -/

/-- `waiting_time = self.model.schedule.steps - self.start_times[waiting_item]`
(source line 310), in the tick clock of the scheduler. -/
def waitingTimeElapsed (startTime now : Nat) : Nat := now - startTime

/-- The resolution guard of `PlanetManager.step` (source line 315): the
round is resolved at a tick exactly when the elapsed waiting time strictly
exceeds `WAITING_TIME`; at line 311 the planet merely waits while the
elapsed time is at most `WAITING_TIME`. -/
def roundResolvesNow (startTime now : Nat) : Bool :=
  decide (WAITING_TIME < waitingTimeElapsed startTime now)

/-! ## Messages (spade message bodies, source lines 221-226, 281-288, 325-337)

A message body is the string `json(item)|destX|destY` with a fourth field
`|utility` on proposals.  The embedding stores the parsed fields; for the
three-field performatives the `utility` field is unused and carried as `0`. -/

/-- The four performatives of the protocol. -/
inductive Perf where
  | callForProposal
  | proposal
  | acceptProposal
  | rejectProposal
deriving DecidableEq

/-- A message as the embedded fragments read it. -/
structure Msg where
  sender : Nat
  recipient : Nat
  perf : Perf
  item : ItemJson
  destX : ℚ
  destY : ℚ
  utility : ℚ
deriving DecidableEq

/-! ## Planet-side proposal bookkeeping (source lines 295-304) -/

/-- `self.proposals`, the dict keyed by `Item`; since the Python class
hashes and compares by `uid` alone (lines 94-98), it is keyed here by the
item uid. -/
abbrev Proposals := List (Nat × List Msg)

/-- Append a message to the entry of the given uid. -/
def appendProp (ps : Proposals) (uid : Nat) (m : Msg) : Proposals :=
  ps.map (fun p => if p.1 = uid then (p.1, p.2 ++ [m]) else p)

/-- One iteration of the drain loop at lines 303-304:
`self.proposals[Item.from_json(json.loads(m.body.split('|')[0]))].append(m)`.
The key is the uid of the deserialised item (`ruid` is the uuid draw that
`Item.from_json` would consume if the wire uid were falsy); a uid that is
not a key of the dict raises `KeyError`. -/
def planetRecordProposal (ps : Proposals) (m : Msg)
    (ra rb rc : ℚ) (ruid : Nat) : Except String Proposals :=
  let key := (itemFromJson m.item ra rb rc ruid).uid
  match List.lookup key ps with
  | some _ => .ok (appendProp ps key m)
  | none => .error "KeyError"

/-! ## Planet-side winner selection (source lines 315-337) -/

/-- The scan of lines 317-322: running best utility starts at `0`,
running best rank at `0`, and an entry takes over only when its utility is
strictly greater than the running best. -/
def bestScan : List ℚ → Nat → Nat → ℚ → Nat × ℚ
  | [], _, br, bu => (br, bu)
  | u :: rest, i, br, bu =>
    if bu < u then bestScan rest (i + 1) i u else bestScan rest (i + 1) br bu

/-- `bestRank` as computed by lines 317-322 from the proposals' utility
fields (`body.split('|')[3]`). -/
def bestRank (us : List ℚ) : Nat := (bestScan us 0 0 0).1

/-- The reply loop of lines 323-337: the `j`-th bidder receives an
`accept_proposal` exactly when `j = r`, a `reject_proposal` otherwise; the
reply body is the waiting item plus the destination fields echoed from that
bidder's own proposal body. -/
def cnpDecisionAux (planetId : Nat) (witem : ItemJson) (r : Nat) :
    Nat → List Msg → List Msg
  | _, [] => []
  | j, p :: rest =>
    { sender := planetId
      recipient := p.sender
      perf := if j = r then .acceptProposal else .rejectProposal
      item := witem
      destX := p.destX
      destY := p.destY
      utility := 0 } :: cnpDecisionAux planetId witem r (j + 1) rest

/-- Resolution of a round with a non-empty bid list (lines 316-337). -/
def cnpDecision (planetId : Nat) (witem : ItemJson) (props : List Msg) : List Msg :=
  cnpDecisionAux planetId witem (bestRank (props.map (fun m => m.utility))) 0 props

/-! ## Planet CFP phase and empty-bid requeue (source lines 276-294, 339-340) -/

/-- The mutable negotiation state of a `PlanetManager`. -/
structure PlanetState where
  itemsToShip : List (ItemJson × Nat)
  waiting : List Nat
  startTimes : List (Nat × Nat)
  proposals : Proposals
deriving DecidableEq

/-- The CFP phase of `PlanetManager.step` (lines 280-294): for every item
of the unassigned pool, broadcast a `call_for_proposal` to every co-located
ship, record the start tick, create the empty bid list, append the item to
the waiting list, and finally clear the pool (`self.items_to_ship = dict()`,
line 294) so the recorded destination is dropped from the planet state. -/
def cfpPhase (selfId : Nat) (planetPos : Nat → ℚ × ℚ) (colocShips : List Nat)
    (now : Nat) (s : PlanetState) : PlanetState × List Msg :=
  ({ itemsToShip := []
     waiting := s.waiting ++ s.itemsToShip.map (fun it => it.1.uid)
     startTimes := s.itemsToShip.map (fun it => (it.1.uid, now)) ++ s.startTimes
     proposals := s.itemsToShip.map (fun it => (it.1.uid, [])) ++ s.proposals },
   s.itemsToShip.flatMap (fun it =>
     colocShips.map (fun sh =>
       { sender := selfId
         recipient := sh
         perf := .callForProposal
         item := it.1
         destX := (planetPos it.2).1
         destY := (planetPos it.2).2
         utility := 0 })))

/-- The empty-bid branch of the resolution loop (lines 339-340):
`self.items_to_ship[waiting_item] = random.choice(self.planets)`, where
`self.planets` lists every planet other than this one and `k` is the index
drawn by `random.choice`. -/
def emptyBidRequeue (pool : List (ItemJson × Nat)) (witem : ItemJson)
    (planets : List Nat) (k : Nat) : List (ItemJson × Nat) :=
  (witem, planets.getD (k % planets.length) 0) :: pool

/-! ## Ship-side negotiation (source lines 157-245) -/

/-- The negotiation-relevant state of a `Ship`. -/
structure ShipState where
  selfId : Nat
  prefA : ℚ
  prefB : ℚ
  prefC : ℚ
  planets : List (Nat × ℚ × ℚ)
  item : Option Item
  destination : Option Nat
  potentialDestination : Option Nat
  waitingForProposal : Bool
deriving DecidableEq

/-- `Ship.utility` (source lines 244-245). -/
def shipUtility (s : ShipState) (it : Item) : ℚ :=
  it.a * s.prefA + it.b * s.prefB + it.c * s.prefC

/-- Pop one rational draw off the modelled `random.random()` stream. -/
def popQ : List ℚ → ℚ × List ℚ
  | [] => (0, [])
  | q :: rest => (q, rest)

/-- Pop one integer draw off the modelled `uuid.uuid1()` stream. -/
def popNat : List Nat → Nat × List Nat
  | [] => (0, [])
  | u :: rest => (u, rest)

/-- Handling of one drained message by `Ship.step` (source lines 213-241):
three sequential guarded blocks for `call_for_proposal`, `reject_proposal`
and `accept_proposal`.  The CFP block deserialises the offered item,
computes its utility, finds the destination planet by coordinate match
(`[...].pop()` takes the last match and raises `IndexError` when there is
none), replies with a proposal whose body serialises the deserialised item,
and raises the waiting flag.  The accept block deserialises the item again
and adopts the tentative destination.  Returns the new state, the remaining
random streams, and the messages sent. -/
def shipHandleMsg (s : ShipState) (rq : List ℚ) (ri : List Nat) (m : Msg) :
    Except String (ShipState × List ℚ × List Nat × List Msg) :=
  if s.item = none ∧ m.perf = .callForProposal ∧ s.waitingForProposal = false then
    let ra := (popQ rq).1
    let rq1 := (popQ rq).2
    let rb := (popQ rq1).1
    let rq2 := (popQ rq1).2
    let rc := (popQ rq2).1
    let rq3 := (popQ rq2).2
    let ruid := (popNat ri).1
    let ri1 := (popNat ri).2
    let pit := itemFromJson m.item ra rb rc ruid
    let u := shipUtility s pit
    match (s.planets.filter (fun p => p.2.1 == m.destX && p.2.2 == m.destY)).getLast? with
    | none => .error "IndexError"
    | some dest =>
      .ok ({ s with potentialDestination := some dest.1, waitingForProposal := true },
           rq3, ri1,
           [{ sender := m.recipient
              recipient := m.sender
              perf := .proposal
              item := itemToJson pit
              destX := m.destX
              destY := m.destY
              utility := u }])
  else if s.item = none ∧ m.perf = .rejectProposal ∧ s.waitingForProposal = true then
    .ok ({ s with waitingForProposal := false, potentialDestination := none }, rq, ri, [])
  else if s.item = none ∧ m.perf = .acceptProposal ∧ s.waitingForProposal = true then
    let ra := (popQ rq).1
    let rb := (popQ (popQ rq).2).1
    let rc := (popQ (popQ (popQ rq).2).2).1
    let rq3 := (popQ (popQ (popQ rq).2).2).2
    let ruid := (popNat ri).1
    let ri1 := (popNat ri).2
    .ok ({ s with
            item := some (itemFromJson m.item ra rb rc ruid)
            destination := s.potentialDestination
            potentialDestination := none
            waitingForProposal := false }, rq3, ri1, [])
  else
    .ok (s, rq, ri, [])

/-- The drained-batch loop of `Ship.step` (source line 213). -/
def shipHandleMsgs : ShipState → List ℚ → List Nat → List Msg →
    Except String (ShipState × List ℚ × List Nat × List Msg)
  | s, rq, ri, [] => .ok (s, rq, ri, [])
  | s, rq, ri, m :: rest =>
    match shipHandleMsg s rq ri m with
    | .error e => .error e
    | .ok (s1, rq1, ri1, outs1) =>
      match shipHandleMsgs s1 rq1 ri1 rest with
      | .error e => .error e
      | .ok (s2, rq2, ri2, outs2) => .ok (s2, rq2, ri2, outs1 ++ outs2)

/-! ## Ship movement and delivery (source lines 184-205) -/

/-- The movement-relevant state of a `Ship`; planets are identified by id
and their coordinates are read through a position map. -/
structure ShipNav where
  x : ℚ
  y : ℚ
  prefA : ℚ
  prefB : ℚ
  prefC : ℚ
  maxSpeed : ℚ
  previousPoint : Nat
  waypoint : Option Nat
  destination : Option Nat
  item : Option Item
deriving DecidableEq

/-- The model state the delivery touches (`model.items`,
`model.computed_items_nb`); `others` stands for every other agent's state,
which the delivery block never reads or writes. -/
structure World (α : Type) where
  items : List Item
  computedItemsNb : Nat
  others : α

/-- Python `list.remove(x)` on `model.items` with `Item.__eq__` comparing
uids (lines 94-95): drop the first element with the given uid, raising
`ValueError` when none matches. -/
def removeFirstByUid : List Item → Nat → Except String (List Item)
  | [], _ => .error "ValueError"
  | it :: rest, uid =>
    if it.uid = uid then .ok rest
    else (removeFirstByUid rest uid).map (fun l => it :: l)

/-- The waypoint block of `Ship.step` (source lines 188-205), given the
position `(newX, newY)` produced by `move_to` and an oracle `nextHop` for
the `dijkstra_path` recomputation of lines 203-205.  Reading `self.item.x`
with no carried item would raise `AttributeError`; the delivery branch
removes the carried item from the world by uid and bumps the delivered
counter. -/
def shipMoveBlock {α : Type} (pos : Nat → ℚ × ℚ) (nextHop : Nat → Nat)
    (s : ShipNav) (w : World α) (newX newY : ℚ) :
    Except String (ShipNav × World α) :=
  match s.waypoint with
  | none => .ok (s, w)
  | some wp =>
    match s.item with
    | none => .error "AttributeError"
    | some it0 =>
      let it := { it0 with x := newX, y := newY }
      let s1 := { s with x := newX, y := newY, item := some it }
      if (newX, newY) = pos wp then
        let s2 := { s1 with previousPoint := wp }
        if s.destination = some wp then
          match removeFirstByUid w.items it.uid with
          | .error e => .error e
          | .ok items2 =>
            .ok ({ s2 with waypoint := none, destination := none, item := none },
                 { w with items := items2, computedItemsNb := w.computedItemsNb + 1 })
        else
          .ok ({ s2 with waypoint := some (nextHop wp) }, w)
      else
        .ok (s1, w)

/-! ## `SpaceRoadNetwork.__init__` connectivity repair (source lines 408-432)

The constructor first draws a Bernoulli edge set over the planet indices
(every outcome is admitted below as an arbitrary bounded edge list), then
repeatedly reconnects: while the graph has more than one connected
component, it picks one node of `components[0]` and one of `components[1]`
and adds an edge between them.  Since `networkx` lists components in node
insertion order, `components[0]` is always the component of planet `0`, so
each added edge joins the component of planet `0` to a node outside it.
The unbounded `while` loop is modelled with fuel: `n` iterations are proved
sufficient. -/

/-- Undirected adjacency in an edge list. -/
def adjB (edges : List (Nat × Nat)) (u v : Nat) : Bool :=
  edges.any (fun e => (e.1 == u && e.2 == v) || (e.1 == v && e.2 == u))

/-- Adjacency as a proposition. -/
def adjP (edges : List (Nat × Nat)) (u v : Nat) : Prop := adjB edges u v = true

/-- Graph reachability: the reflexive-transitive closure of adjacency. -/
def Reaches (edges : List (Nat × Nat)) (u v : Nat) : Prop :=
  Relation.ReflTransGen (adjP edges) u v

/-- One breadth step of the bounded closure: add every vertex below `n`
that is adjacent to the current set. -/
def expandReach (n : Nat) (edges : List (Nat × Nat)) (s : List Nat) : List Nat :=
  s ++ (List.range n).filter (fun v => !s.contains v && s.any (fun u => adjB edges u v))

/-- Iterate the breadth step. -/
def iterReach (n : Nat) (edges : List (Nat × Nat)) : Nat → List Nat → List Nat
  | 0, s => s
  | fuel + 1, s => iterReach n edges fuel (expandReach n edges s)

/-- The connected component of planet `0`, as a bounded closure (`n` steps
saturate any graph on `n` vertices). -/
def reachFrom0 (n : Nat) (edges : List (Nat × Nat)) : List Nat :=
  iterReach n edges n [0]

/-- Models the loop guard
`len(list(nx.connected_components(self.initial_graph))) != 1` (line 422):
on a non-empty vertex set the graph has exactly one component exactly when
every vertex lies in the component of planet `0`. -/
def isConnected (n : Nat) (edges : List (Nat × Nat)) : Bool :=
  (List.range n).all (fun v => (reachFrom0 n edges).contains v)

/-- The reconnection loop of lines 422-426, with fuel: while the graph is
disconnected, add the edge returned by the choice oracle (modelling the two
`random.choice` calls on `components[0]` and `components[1]`). -/
def reconnect (n : Nat) (choose : List (Nat × Nat) → Nat × Nat) :
    Nat → List (Nat × Nat) → List (Nat × Nat)
  | 0, edges => edges
  | fuel + 1, edges =>
    if isConnected n edges then edges
    else reconnect n choose fuel (choose edges :: edges)

/-- The constructed road graph: the reconnection loop applied to the
Bernoulli edge draw, with fuel `n`. -/
def roadGraphEdges (n : Nat) (choose : List (Nat × Nat) → Nat × Nat)
    (startEdges : List (Nat × Nat)) : List (Nat × Nat) :=
  reconnect n choose n startEdges

/-- Every edge endpoint is a planet index. -/
def edgesBounded (n : Nat) (edges : List (Nat × Nat)) : Prop :=
  ∀ e ∈ edges, e.1 < n ∧ e.2 < n

/-- Contract of the two `random.choice` calls of lines 423-424: when the
graph is disconnected, the chosen pair joins a member of the component of
planet `0` (`components[0]`) to a planet outside it (a member of
`components[1]` is in particular outside `components[0]`). -/
def ChooseOk (n : Nat) (choose : List (Nat × Nat) → Nat × Nat) : Prop :=
  ∀ edges, isConnected n edges = false →
    (choose edges).1 ∈ reachFrom0 n edges ∧ (choose edges).2 ∉ reachFrom0 n edges ∧
    (choose edges).1 < n ∧ (choose edges).2 < n

/-- A whole run of environment ticks acting on the road network. -/
def runTicks (ticks : List ((Nat → Bool) × (Nat → Nat))) (net : RoadNet) : RoadNet :=
  ticks.foldl (fun n t => roadNetTick t.1 t.2 n) net

/-! ## Theorems -/

/-- C2 counterexample: with `startTime = 0`, the guard of line 315 is still
false at tick `3 = WAITING_TIME` (the round is NOT resolved exactly
`WAITING_TIME` ticks after its start, contrary to the claim); it first
fires at tick `4`. -/
theorem C2_counterexample :
    roundResolvesNow 0 WAITING_TIME = false ∧
    roundResolvesNow 0 (WAITING_TIME + 1) = true := by decide

/-- C2 (amended): a CNP round started at tick `startTime` is resolved at a
tick exactly when at least `WAITING_TIME + 1 = 4` ticks have elapsed; the
planet keeps the round open (accumulating bids, taking no resolution
action) through elapsed times `0, 1, 2, 3`. -/
theorem C2_resolution_after_four_ticks (startTime now : Nat) :
    roundResolvesNow startTime now = true ↔ startTime + WAITING_TIME + 1 ≤ now := by
  simp only [roundResolvesNow, waitingTimeElapsed, WAITING_TIME, decide_eq_true_eq]
  omega

/-- C3: the exclusion filter of line 440 is dead code.  The loop variable
`state` coming from `current_graph.edges.items()` is the edge's attribute
dictionary, so `n != state` compares a float with a dictionary and never
excludes anything: the candidate list equals all of `road_states`.
Consequently an edge whose multiplier is `1.0` can be resampled to `1.0`
(here: the 5% draw fires for edge `(0, 1)` with current multiplier `1`,
`random.choice` picks index `2`, and the new multiplier written to both
directions is again `1`) - the code contradicts the intended behaviour of
its own exclusion filter. -/
theorem C3_resample_can_repeat :
    issueCandidates (.dict [("distance", 5)]) = roadStates ∧
    roadStep [(0, 1)] (fun _ => 5) (fun _ => true) (fun _ => 2) (fun _ => 1) (0, 1) = 1 ∧
    roadStep [(0, 1)] (fun _ => 5) (fun _ => true) (fun _ => 2) (fun _ => 1) (1, 0) = 1 := by
  refine ⟨rfl, ?_, ?_⟩ <;> rfl

/-- C9 counterexample: an explicitly supplied attribute `a = 0.0` is NOT
stored; `Item.__init__` tests `not a`, which is true for `0.0`, and draws
a fresh random value (here `1/2`) instead - deserialising an item snapshot
whose `a` is `0.0` does not round-trip. -/
theorem C9_counterexample :
    (itemFromJson ⟨0, 1, 1, 5, 5, 7⟩ (1/2) (1/3) (1/4) 99).a = 1/2 ∧
    (itemFromJson ⟨0, 1, 1, 5, 5, 7⟩ (1/2) (1/3) (1/4) 99).a ≠ 0 := by
  norm_num [itemFromJson, mkItem, optFalsy, optFalsyNat]

/-- C9 (amended): the constructor stores exactly the supplied values for
every *truthy* supplied argument (non-zero attributes, non-zero uid), and
draws fresh random values exactly for the arguments that are absent; a
supplied zero attribute or zero uid is treated as absent and redrawn.
In particular `Item.from_json` round-trips every snapshot whose attributes
and uid are non-zero. -/
theorem C9_ctor_stores_truthy (x y a b c : ℚ) (u : Nat) (ra rb rc : ℚ) (ruid : Nat)
    (ha : a ≠ 0) (hb : b ≠ 0) (hc : c ≠ 0) (hu : u ≠ 0) :
    mkItem x y (some a) (some b) (some c) (some u) ra rb rc ruid = ⟨a, b, c, x, y, u⟩ ∧
    mkItem x y none none none none ra rb rc ruid = ⟨ra, rb, rc, x, y, ruid⟩ ∧
    itemFromJson ⟨a, b, c, x, y, u⟩ ra rb rc ruid = ⟨a, b, c, x, y, u⟩ ∧
    (mkItem x y (some 0) (some b) (some c) (some u) ra rb rc ruid).a = ra ∧
    (mkItem x y (some a) (some b) (some c) (some 0) ra rb rc ruid).uid = ruid := by
  refine ⟨?_, rfl, ?_, ?_, ?_⟩ <;>
    simp [mkItem, itemFromJson, optFalsy, optFalsyNat, ha, hb, hc, hu]

/-- C9 witness: the amended constructor contract evaluated at concrete
truthy inputs. -/
theorem C9_witness :
    mkItem 5 6 (some (1/2)) (some (1/3)) (some (1/4)) (some 7) 0 0 0 9
      = ⟨1/2, 1/3, 1/4, 5, 6, 7⟩ ∧
    mkItem 5 6 none none none none 0 0 0 9 = ⟨0, 0, 0, 5, 6, 9⟩ ∧
    itemFromJson ⟨1/2, 1/3, 1/4, 5, 6, 7⟩ 0 0 0 9 = ⟨1/2, 1/3, 1/4, 5, 6, 7⟩ ∧
    (mkItem 5 6 (some 0) (some (1/3)) (some (1/4)) (some 7) 0 0 0 9).a = 0 ∧
    (mkItem 5 6 (some (1/2)) (some (1/3)) (some (1/4)) (some 0) 0 0 0 9).uid = 9 :=
  C9_ctor_stores_truthy 5 6 (1/2) (1/3) (1/4) 7 0 0 0 9
    (by norm_num) (by norm_num) (by norm_num) (by decide)

/-- The uid of a deserialised item equals the wire uid whenever the wire uid
is truthy (non-zero); `uuid.uuid1()` never yields `0`. -/
theorem itemFromJson_uid (j : ItemJson) (ra rb rc : ℚ) (ruid : Nat) (h : j.uid ≠ 0) :
    (itemFromJson j ra rb rc ruid).uid = j.uid := by
  simp [itemFromJson, mkItem, optFalsyNat, h]

/-- C4 counterexample: a proposal for an item the planet has no round for
(empty `proposals` dict) is NOT silently dropped; line 304 indexes the
plain dict and raises `KeyError`, aborting the planet step. -/
theorem C4_counterexample :
    planetRecordProposal [] ⟨3, 1, .proposal, ⟨1, 1, 1, 0, 0, 42⟩, 7, 7, 1⟩ 0 0 0 5
      = .error "KeyError" := rfl

/-- C4 (amended): when the drained message refers to an item (by uid) with
no entry in the planet's `proposals` dict, line 304 raises `KeyError` -
the message is not silently dropped and the planet's step is aborted;
when an entry exists, the message is appended to that round's bid list. -/
theorem C4_unknown_item_raises (ps : Proposals) (m : Msg) (ra rb rc : ℚ) (ruid : Nat)
    (huid : m.item.uid ≠ 0) :
    (List.lookup m.item.uid ps = none →
      planetRecordProposal ps m ra rb rc ruid = .error "KeyError") ∧
    (∀ l, List.lookup m.item.uid ps = some l →
      planetRecordProposal ps m ra rb rc ruid = .ok (appendProp ps m.item.uid m)) := by
  constructor
  · intro h
    simp only [planetRecordProposal, itemFromJson_uid m.item ra rb rc ruid huid, h]
  · intro l h
    simp only [planetRecordProposal, itemFromJson_uid m.item ra rb rc ruid huid, h]

/-- C4 witness: the amended behaviour evaluated at a concrete unknown-item
message and at a concrete known-item message. -/
theorem C4_witness :
    (List.lookup 42 ([] : Proposals) = none →
      planetRecordProposal [] ⟨3, 1, .proposal, ⟨1, 1, 1, 0, 0, 42⟩, 7, 7, 1⟩ 0 0 0 5
        = .error "KeyError") ∧
    (∀ l, List.lookup 42 ([] : Proposals) = some l →
      planetRecordProposal [] ⟨3, 1, .proposal, ⟨1, 1, 1, 0, 0, 42⟩, 7, 7, 1⟩ 0 0 0 5
        = .ok (appendProp [] 42 ⟨3, 1, .proposal, ⟨1, 1, 1, 0, 0, 42⟩, 7, 7, 1⟩)) :=
  C4_unknown_item_raises [] ⟨3, 1, .proposal, ⟨1, 1, 1, 0, 0, 42⟩, 7, 7, 1⟩ 0 0 0 5
    (by decide)

/-- The set of the two directed pairs of an edge is closed under swapping. -/
theorem inPair_swap (f e : Nat × Nat) :
    ((f.2, f.1) = e ∨ (f.2, f.1) = (e.2, e.1)) ↔ (f = e ∨ f = (e.2, e.1)) := by
  obtain ⟨e1, e2⟩ := e
  obtain ⟨f1, f2⟩ := f
  simp only [Prod.mk.injEq]
  omega

/-- The paired write of lines 442-443 preserves direction symmetry at every
pair. -/
theorem writeBoth_symAt (sm : Nat × Nat → ℚ) (e f : Nat × Nat) (v : ℚ)
    (h : sm f = sm (f.2, f.1)) : writeBoth sm e v f = writeBoth sm e v (f.2, f.1) := by
  simp only [writeBoth]
  by_cases hf : f = e ∨ f = (e.2, e.1)
  · rw [if_pos hf, if_pos ((inPair_swap f e).mpr hf)]
  · rw [if_neg hf, if_neg (fun hc => hf ((inPair_swap f e).mp hc))]
    exact h

/-- A paired write leaves any pair either rewritten to the new value or
untouched. -/
theorem writeBoth_val (sm : Nat × Nat → ℚ) (e f : Nat × Nat) (v : ℚ) :
    writeBoth sm e v f = v ∨ writeBoth sm e v f = sm f := by
  simp only [writeBoth]
  by_cases hf : f = e ∨ f = (e.2, e.1) <;> simp [hf]

/-- Every resampling candidate, and the `getD` fallback `0`, is a road
state. -/
theorem issueCandidates_getD_mem (state : PyVal) (k : Nat) :
    (issueCandidates state).getD k 0 ∈ roadStates := by
  rcases lt_or_ge k (issueCandidates state).length with h | h
  · rw [List.getD_eq_getElem _ _ h]
    exact (List.mem_filter.mp (List.getElem_mem h)).1
  · rw [List.getD_eq_default _ _ h]
    simp [roadStates]

/-- The edge loop of `SpaceRoadNetwork.step` preserves direction symmetry
at every pair, and every value it writes is a road state. -/
theorem roadStepAux_inv (dist : Nat × Nat → ℚ) (issue : Nat → Bool) (pick : Nat → Nat)
    (l : List (Nat × (Nat × Nat))) (sm : Nat × Nat → ℚ) (f : Nat × Nat)
    (h : sm f = sm (f.2, f.1)) :
    roadStepAux dist issue pick l sm f = roadStepAux dist issue pick l sm (f.2, f.1) ∧
    (roadStepAux dist issue pick l sm f = sm f ∨
      roadStepAux dist issue pick l sm f ∈ roadStates) := by
  induction l generalizing sm with
  | nil => exact ⟨h, Or.inl rfl⟩
  | cons p rest ih =>
    obtain ⟨i, e⟩ := p
    by_cases hi : issue i = true
    · simp only [roadStepAux, hi, if_true]
      set v := (issueCandidates (.dict [("distance", dist e)])).getD
        (pick i % (issueCandidates (.dict [("distance", dist e)])).length) 0 with hv
      obtain ⟨ih1, ih2⟩ := ih (writeBoth sm e v) (writeBoth_symAt sm e f v h)
      refine ⟨ih1, ?_⟩
      rcases ih2 with h3 | h3
      · rcases writeBoth_val sm e f v with h4 | h4
        · right
          rw [h3, h4, hv]
          exact issueCandidates_getD_mem _ _
        · left
          rw [h3, h4]
      · right
        exact h3
    · simp only [roadStepAux, hi, if_false]
      exact ih sm h

/-- `SpaceRoadNetwork.step` preserves the symmetry-and-road-state
invariant. -/
theorem roadStep_preserves_edgeSymOk (edges : List (Nat × Nat)) (dist : Nat × Nat → ℚ)
    (issue : Nat → Bool) (pick : Nat → Nat) (sm : Nat × Nat → ℚ)
    (h : edgeSymOk edges sm) :
    edgeSymOk edges (roadStep edges dist issue pick sm) := by
  intro e he
  simp only [roadStep]
  obtain ⟨h1, h2⟩ := h e he
  obtain ⟨g1, g2⟩ := roadStepAux_inv dist issue pick edges.enum sm e h1
  refine ⟨g1, ?_⟩
  rcases g2 with g2 | g2
  · rw [g2]
    exact h2
  · exact g2

/-- A pair already at multiplier `1` stays at `1` through the constructor's
speed-map setup (every write writes `1`). -/
theorem smSetup_one (l : List (Nat × Nat)) (sm : Nat × Nat → ℚ) (f : Nat × Nat)
    (h : sm f = 1) : smSetup l sm f = 1 := by
  induction l generalizing sm with
  | nil => exact h
  | cons e rest ih =>
    simp only [smSetup]
    apply ih
    rcases writeBoth_val sm e f 1 with h4 | h4
    · rw [h4]
    · rw [h4]
      exact h

/-- Every listed edge ends the constructor's speed-map setup with
multiplier `1` in both directions. -/
theorem smSetup_mem_one (l : List (Nat × Nat)) (sm : Nat × Nat → ℚ) (e : Nat × Nat)
    (he : e ∈ l) : smSetup l sm e = 1 ∧ smSetup l sm (e.2, e.1) = 1 := by
  induction l generalizing sm with
  | nil => cases he
  | cons g rest ih =>
    simp only [smSetup]
    rcases List.mem_cons.mp he with rfl | hmem
    · constructor
      · apply smSetup_one
        simp [writeBoth]
      · apply smSetup_one
        simp [writeBoth]
    · exact ih _ hmem

/-- A whole run of environment ticks never touches the edge list. -/
theorem runTicks_edges (ticks : List ((Nat → Bool) × (Nat → Nat))) (net : RoadNet) :
    (runTicks ticks net).edges = net.edges := by
  induction ticks generalizing net with
  | nil => rfl
  | cons t rest ih =>
    simpa only [runTicks, List.foldl_cons] using ih (roadNetTick t.1 t.2 net)

/-- A whole run of environment ticks preserves the symmetry invariant. -/
theorem runTicks_edgeSymOk (ticks : List ((Nat → Bool) × (Nat → Nat))) (net : RoadNet)
    (h : edgeSymOk net.edges net.sm) :
    edgeSymOk (runTicks ticks net).edges (runTicks ticks net).sm := by
  induction ticks generalizing net with
  | nil => exact h
  | cons t rest ih =>
    simp only [runTicks, List.foldl_cons] at ih ⊢
    exact ih (roadNetTick t.1 t.2 net) (roadStep_preserves_edgeSymOk _ _ _ _ _ h)

/-- C10: in every reachable state of the road network, each edge carries
the same speed multiplier in both directed pairs and that multiplier is one
of 0, 0.5, 1: the constructor establishes the invariant (writing `1.0` to
both directions of every edge), one `SpaceRoadNetwork.step` preserves it
(every resampling writes one road state to both directions of the edge),
and hence a whole run of ticks from the constructed state preserves it. -/
theorem C10_speed_map_symmetric (edges : List (Nat × Nat)) (base sm dist : Nat × Nat → ℚ)
    (issue : Nat → Bool) (pick : Nat → Nat)
    (ticks : List ((Nat → Bool) × (Nat → Nat)))
    (h : edgeSymOk edges sm) :
    edgeSymOk edges (smSetup edges base) ∧
    edgeSymOk edges (roadStep edges dist issue pick sm) ∧
    edgeSymOk edges (runTicks ticks ⟨edges, dist, smSetup edges base⟩).sm := by
  have hsetup : edgeSymOk edges (smSetup edges base) := by
    intro e he
    obtain ⟨h1, h2⟩ := smSetup_mem_one edges base e he
    rw [h1, h2]
    exact ⟨rfl, by simp [roadStates]⟩
  refine ⟨hsetup, roadStep_preserves_edgeSymOk edges dist issue pick sm h, ?_⟩
  have := runTicks_edgeSymOk ticks ⟨edges, dist, smSetup edges base⟩ hsetup
  rwa [runTicks_edges] at this

/-- C10 witness: the invariant evaluated on a one-edge network, after setup
and after a tick that resamples the edge. -/
theorem C10_witness :
    edgeSymOk [(0, 1)] (smSetup [(0, 1)] (fun _ => 0)) ∧
    edgeSymOk [(0, 1)] (roadStep [(0, 1)] (fun _ => 5) (fun _ => true) (fun _ => 1)
      (fun _ => 1)) ∧
    edgeSymOk [(0, 1)] (runTicks [] ⟨[(0, 1)], fun _ => 5, smSetup [(0, 1)]
      (fun _ => 0)⟩).sm :=
  C10_speed_map_symmetric [(0, 1)] (fun _ => 0) (fun _ => 1) (fun _ => 5)
    (fun _ => true) (fun _ => 1) [] (by
      intro e he
      simp only [List.mem_singleton] at he
      subst he
      exact ⟨rfl, by simp [roadStates]⟩)

/-- Full characterisation of the scan of lines 317-322: either no entry
ever beat the running best (the running pair is returned and every entry is
at most the running best), or the returned rank points at an entry that
strictly beats the running best, strictly beats every earlier entry, and is
at least every later entry (so on ties the first-encountered maximum
wins). -/
theorem bestScan_spec (us : List ℚ) (i br : Nat) (bu : ℚ) :
    ((bestScan us i br bu).1 = br ∧ (bestScan us i br bu).2 = bu ∧
      ∀ k, k < us.length → us.getD k 0 ≤ bu) ∨
    (∃ k, k < us.length ∧ (bestScan us i br bu).1 = i + k ∧
      (bestScan us i br bu).2 = us.getD k 0 ∧ bu < us.getD k 0 ∧
      (∀ m, m < k → us.getD m 0 < us.getD k 0) ∧
      (∀ m, k ≤ m → m < us.length → us.getD m 0 ≤ us.getD k 0)) := by
  induction us generalizing i br bu with
  | nil =>
    left
    exact ⟨rfl, rfl, fun k hk => absurd hk (by simp)⟩
  | cons u rest ih =>
    by_cases hu : bu < u
    · simp only [bestScan, if_pos hu]
      rcases ih (i + 1) i u with ⟨h1, h2, h3⟩ | ⟨k, hk, h1, h2, h3, h4, h5⟩
      · right
        refine ⟨0, by simp, by simpa using h1, by simpa using h2, by simpa using hu, ?_, ?_⟩
        · intro m hm
          exact absurd hm (Nat.not_lt_zero m)
        · intro m _ hm
          cases m with
          | zero => simp
          | succ m2 =>
            simp only [List.getD_cons_succ, List.getD_cons_zero]
            exact h3 m2 (by simpa using hm)
      · right
        refine ⟨k + 1, by simpa using hk, ?_, by simpa using h2, ?_, ?_, ?_⟩
        · rw [h1]
          omega
        · simp only [List.getD_cons_succ]
          exact lt_trans hu h3
        · intro m hm
          cases m with
          | zero =>
            simp only [List.getD_cons_succ, List.getD_cons_zero]
            exact h3
          | succ m2 =>
            simp only [List.getD_cons_succ]
            exact h4 m2 (by omega)
        · intro m hm1 hm2
          cases m with
          | zero => omega
          | succ m2 =>
            simp only [List.getD_cons_succ]
            exact h5 m2 (by omega) (by simpa using hm2)
    · simp only [bestScan, if_neg hu]
      rcases ih (i + 1) br bu with ⟨h1, h2, h3⟩ | ⟨k, hk, h1, h2, h3, h4, h5⟩
      · left
        refine ⟨h1, h2, ?_⟩
        intro k hk
        cases k with
        | zero => simpa using le_of_not_lt hu
        | succ k2 =>
          simp only [List.getD_cons_succ]
          exact h3 k2 (by simpa using hk)
      · right
        refine ⟨k + 1, by simpa using hk, ?_, by simpa using h2, ?_, ?_, ?_⟩
        · rw [h1]
          omega
        · simp only [List.getD_cons_succ]
          exact h3
        · intro m hm
          cases m with
          | zero =>
            simp only [List.getD_cons_succ, List.getD_cons_zero]
            exact lt_of_le_of_lt (le_of_not_lt hu) h3
          | succ m2 =>
            simp only [List.getD_cons_succ]
            exact h4 m2 (by omega)
        · intro m hm1 hm2
          cases m with
          | zero => omega
          | succ m2 =>
            simp only [List.getD_cons_succ]
            exact h5 m2 (by omega) (by simpa using hm2)

/-- The scan of lines 317-322 starting from rank `0` and best utility `0`:
the returned rank is in range; if some bid is strictly positive the
returned rank attains the maximum utility and strictly beats every earlier
bid; if no bid is strictly positive the returned rank is `0`. -/
theorem bestRank_spec (us : List ℚ) (h : us ≠ []) :
    bestRank us < us.length ∧
    ((∃ i, i < us.length ∧ 0 < us.getD i 0) →
      (∀ i, i < us.length → us.getD i 0 ≤ us.getD (bestRank us) 0) ∧
      (∀ j, j < bestRank us → us.getD j 0 < us.getD (bestRank us) 0)) ∧
    ((∀ i, i < us.length → us.getD i 0 ≤ 0) → bestRank us = 0) := by
  rcases bestScan_spec us 0 0 0 with ⟨h1, _, h3⟩ | ⟨k, hk, h1, _, h3, h4, h5⟩
  · unfold bestRank
    rw [h1]
    refine ⟨List.length_pos.mpr h, ?_, fun _ => rfl⟩
    rintro ⟨i, hi, hpos⟩
    exact absurd (h3 i hi) (not_le.mpr hpos)
  · unfold bestRank
    rw [h1, Nat.zero_add]
    refine ⟨hk, fun _ => ⟨?_, h4⟩, fun hall => ?_⟩
    · intro i hi
      rcases lt_or_ge i k with hik | hik
      · exact le_of_lt (h4 i hik)
      · exact h5 i hik hi
    · exact absurd (hall k hk) (not_le.mpr h3)

/-- The reply loop emits one reply per proposal. -/
theorem cnpDecisionAux_length (pid : Nat) (w : ItemJson) (r : Nat) (l : List Msg) :
    ∀ j, (cnpDecisionAux pid w r j l).length = l.length := by
  induction l with
  | nil => intro j; rfl
  | cons p rest ih =>
    intro j
    simp only [cnpDecisionAux, List.length_cons, ih (j + 1)]

/-- The `m`-th reply of the loop started at index `j`: addressed to the
`m`-th bidder, an accept exactly when `j + m` is the winning rank, with the
waiting item and that bidder's echoed destination fields. -/
theorem cnpDecisionAux_getD (pid : Nat) (w : ItemJson) (r : Nat) (l : List Msg)
    (dm : Msg) : ∀ j m, m < l.length →
    (cnpDecisionAux pid w r j l).getD m dm =
      { sender := pid
        recipient := (l.getD m dm).sender
        perf := if j + m = r then Perf.acceptProposal else Perf.rejectProposal
        item := w
        destX := (l.getD m dm).destX
        destY := (l.getD m dm).destY
        utility := 0 } := by
  induction l with
  | nil =>
    intro j m hm
    exact absurd hm (by simp)
  | cons p rest ih =>
    intro j m hm
    cases m with
    | zero => simp [cnpDecisionAux]
    | succ m2 =>
      simp only [cnpDecisionAux, List.getD_cons_succ]
      rw [ih (j + 1) m2 (by simpa using hm)]
      have hidx : j + 1 + m2 = j + (m2 + 1) := by omega
      rw [hidx]

/-- The reply loop sends exactly one accept when the winning rank lies in
the index window, none otherwise. -/
theorem cnpDecisionAux_accept_count (pid : Nat) (w : ItemJson) (r : Nat) (l : List Msg) :
    ∀ j, ((cnpDecisionAux pid w r j l).filter
        (fun m => m.perf == Perf.acceptProposal)).length =
      if j ≤ r ∧ r < j + l.length then 1 else 0 := by
  induction l with
  | nil =>
    intro j
    simp only [cnpDecisionAux, List.filter_nil, List.length_nil, List.length_nil]
    rw [if_neg (by omega)]
  | cons p rest ih =>
    intro j
    simp only [cnpDecisionAux, List.filter_cons]
    by_cases hj : j = r
    · subst hj
      rw [if_pos rfl]
      simp only [beq_self_eq_true, if_true]
      rw [List.length_cons, ih (j + 1), if_neg (by omega), if_pos (by
        refine ⟨le_refl j, ?_⟩
        simp only [List.length_cons]
        omega)]
    · rw [if_neg hj]
      simp only [show (Perf.rejectProposal == Perf.acceptProposal) = false from rfl,
        Bool.false_eq_true, if_false]
      rw [ih (j + 1)]
      by_cases hwin : j + 1 ≤ r ∧ r < j + 1 + rest.length
      · rw [if_pos hwin, if_pos (by
          simp only [List.length_cons]
          omega)]
      · rw [if_neg hwin, if_neg (by
          simp only [List.length_cons]
          omega)]

/-- The utility list read by the scan, indexed back through the proposal
list. -/
theorem getD_map_utility (props : List Msg) (k : Nat) (dm : Msg) (hk : k < props.length) :
    (props.map (fun m => m.utility)).getD k 0 = (props.getD k dm).utility := by
  rw [List.getD_eq_getElem _ _ (by simpa using hk), List.getD_eq_getElem _ _ hk]
  simp

/-- C1: when a round expires with a non-empty bid list, the planet sends
one reply per bidder, exactly one of which is an `accept_proposal`; the
`j`-th reply goes to the `j`-th bidder and is the accept exactly when `j`
is the scanned best rank; the best rank attains the maximum bid utility and
strictly beats every earlier bid (so ties go to the first-encountered
maximum) whenever some bid exceeds the running-best initial value `0`, and
defaults to index `0` when no bid exceeds `0`. -/
theorem C1_winner_selection (pid : Nat) (w : ItemJson) (props : List Msg) (dm : Msg)
    (hne : props ≠ []) :
    bestRank (props.map (fun m => m.utility)) < props.length ∧
    (cnpDecision pid w props).length = props.length ∧
    ((cnpDecision pid w props).filter
      (fun m => m.perf == Perf.acceptProposal)).length = 1 ∧
    (∀ j, j < props.length →
      ((cnpDecision pid w props).getD j dm).perf =
        (if j = bestRank (props.map (fun m => m.utility)) then Perf.acceptProposal
          else Perf.rejectProposal) ∧
      ((cnpDecision pid w props).getD j dm).recipient = (props.getD j dm).sender) ∧
    ((∃ i, i < props.length ∧ 0 < (props.getD i dm).utility) →
      (∀ i, i < props.length → (props.getD i dm).utility ≤
        (props.getD (bestRank (props.map (fun m => m.utility))) dm).utility) ∧
      (∀ j, j < bestRank (props.map (fun m => m.utility)) →
        (props.getD j dm).utility <
          (props.getD (bestRank (props.map (fun m => m.utility))) dm).utility)) ∧
    ((∀ i, i < props.length → (props.getD i dm).utility ≤ 0) →
      bestRank (props.map (fun m => m.utility)) = 0) := by
  set us := props.map (fun m => m.utility) with hus
  have hlen : us.length = props.length := by simp [hus]
  have husne : us ≠ [] := by
    simp only [hus, ne_eq, List.map_eq_nil_iff]
    exact hne
  obtain ⟨hrank, hmax, hzero⟩ := bestRank_spec us husne
  have hrankp : bestRank us < props.length := by omega
  refine ⟨hrankp, cnpDecisionAux_length pid w (bestRank us) props 0, ?_, ?_, ?_, ?_⟩
  · rw [cnpDecision, ← hus, cnpDecisionAux_accept_count pid w (bestRank us) props 0,
      if_pos ⟨Nat.zero_le _, by omega⟩]
  · intro j hj
    rw [cnpDecision, ← hus, cnpDecisionAux_getD pid w (bestRank us) props dm 0 j hj]
    exact ⟨by rw [Nat.zero_add], rfl⟩
  · intro hex
    obtain ⟨i0, hi0, hpos⟩ := hex
    have hmax2 := hmax ⟨i0, by omega, by
      rw [getD_map_utility props i0 dm hi0]
      exact hpos⟩
    constructor
    · intro i hi
      have := hmax2.1 i (by omega)
      rwa [getD_map_utility props i dm hi,
        getD_map_utility props (bestRank us) dm hrankp] at this
    · intro j hj
      have := hmax2.2 j hj
      have hjp : j < props.length := by omega
      rwa [getD_map_utility props j dm hjp,
        getD_map_utility props (bestRank us) dm hrankp] at this
  · intro hall
    refine hzero ?_
    intro i hi
    rw [getD_map_utility props i dm (by omega)]
    exact hall i (by omega)

/-- The spec's own winner-selection example: bids with utilities
0.7, 0.9, 0.4 from ships 11, 12, 13. -/
def exampleProps : List Msg :=
  [⟨11, 1, .proposal, ⟨1, 1, 1, 0, 0, 42⟩, 7, 7, 7/10⟩,
   ⟨12, 1, .proposal, ⟨1, 1, 1, 0, 0, 42⟩, 7, 7, 9/10⟩,
   ⟨13, 1, .proposal, ⟨1, 1, 1, 0, 0, 42⟩, 7, 7, 4/10⟩]

/-- A default message for indexed reads. -/
def dMsg : Msg := ⟨0, 0, .proposal, ⟨0, 0, 0, 0, 0, 0⟩, 0, 0, 0⟩

/-- C1 witness: the winner-selection contract evaluated on the spec's
example round. -/
theorem C1_winner_selection_witness :
    bestRank (exampleProps.map (fun m => m.utility)) < exampleProps.length ∧
    (cnpDecision 5 ⟨1, 1, 1, 0, 0, 42⟩ exampleProps).length = exampleProps.length ∧
    ((cnpDecision 5 ⟨1, 1, 1, 0, 0, 42⟩ exampleProps).filter
      (fun m => m.perf == Perf.acceptProposal)).length = 1 ∧
    (∀ j, j < exampleProps.length →
      ((cnpDecision 5 ⟨1, 1, 1, 0, 0, 42⟩ exampleProps).getD j dMsg).perf =
        (if j = bestRank (exampleProps.map (fun m => m.utility)) then Perf.acceptProposal
          else Perf.rejectProposal) ∧
      ((cnpDecision 5 ⟨1, 1, 1, 0, 0, 42⟩ exampleProps).getD j dMsg).recipient =
        (exampleProps.getD j dMsg).sender) ∧
    ((∃ i, i < exampleProps.length ∧ 0 < (exampleProps.getD i dMsg).utility) →
      (∀ i, i < exampleProps.length → (exampleProps.getD i dMsg).utility ≤
        (exampleProps.getD (bestRank (exampleProps.map (fun m => m.utility))) dMsg).utility) ∧
      (∀ j, j < bestRank (exampleProps.map (fun m => m.utility)) →
        (exampleProps.getD j dMsg).utility <
          (exampleProps.getD (bestRank (exampleProps.map (fun m => m.utility))) dMsg).utility)) ∧
    ((∀ i, i < exampleProps.length → (exampleProps.getD i dMsg).utility ≤ 0) →
      bestRank (exampleProps.map (fun m => m.utility)) = 0) :=
  C1_winner_selection 5 ⟨1, 1, 1, 0, 0, 42⟩ exampleProps dMsg (by
    simp [exampleProps])

/-- C6: a round that expires with no bids puts the item back into the
initiator's unassigned pool, paired with a destination drawn by index from
the list of other planets; drawing the original destination again is
possible (its index is a valid draw); and at the next CFP opportunity the
pool is cleared again (so the recorded destination is dropped from the
planet state, as it was when this round started) after a
`call_for_proposal` for the item is sent to every co-located ship and the
round bookkeeping (waiting list, start tick, empty bid list) is created. -/
theorem C6_empty_bid_requeue (pool : List (ItemJson × Nat)) (witem : ItemJson)
    (planets : List Nat) (k : Nat) (dOrig : Nat) (selfId : Nat)
    (planetPos : Nat → ℚ × ℚ) (colocShips : List Nat) (now : Nat) (s : PlanetState)
    (hpl : planets ≠ []) (hd : dOrig ∈ planets)
    (hs : s.itemsToShip = emptyBidRequeue pool witem planets k) :
    (witem, planets.getD (k % planets.length) 0) ∈ emptyBidRequeue pool witem planets k ∧
    planets.getD (k % planets.length) 0 ∈ planets ∧
    (∃ k2, planets.getD (k2 % planets.length) 0 = dOrig) ∧
    (cfpPhase selfId planetPos colocShips now s).1.itemsToShip = [] ∧
    witem.uid ∈ (cfpPhase selfId planetPos colocShips now s).1.waiting ∧
    (witem.uid, now) ∈ (cfpPhase selfId planetPos colocShips now s).1.startTimes ∧
    (witem.uid, ([] : List Msg)) ∈ (cfpPhase selfId planetPos colocShips now s).1.proposals ∧
    (∀ sh ∈ colocShips,
      ({ sender := selfId
         recipient := sh
         perf := .callForProposal
         item := witem
         destX := (planetPos (planets.getD (k % planets.length) 0)).1
         destY := (planetPos (planets.getD (k % planets.length) 0)).2
         utility := 0 } : Msg) ∈ (cfpPhase selfId planetPos colocShips now s).2) := by
  have hlen : 0 < planets.length := List.length_pos.mpr hpl
  have hmod : k % planets.length < planets.length := Nat.mod_lt _ hlen
  refine ⟨List.mem_cons_self _ _, ?_, ?_, rfl, ?_, ?_, ?_, ?_⟩
  · rw [List.getD_eq_getElem _ _ hmod]
    exact List.getElem_mem hmod
  · obtain ⟨n, hget⟩ := List.get_of_mem hd
    refine ⟨n.val, ?_⟩
    rw [Nat.mod_eq_of_lt n.isLt, List.getD_eq_getElem _ _ n.isLt]
    simpa using hget
  · simp [cfpPhase, hs, emptyBidRequeue]
  · simp [cfpPhase, hs, emptyBidRequeue]
  · simp [cfpPhase, hs, emptyBidRequeue]
  · intro sh hsh
    simp only [cfpPhase, hs, emptyBidRequeue]
    rw [List.flatMap_cons]
    apply List.mem_append_left
    exact List.mem_map_of_mem _ hsh

/-- C6 witness: the empty-bid requeue contract on a concrete round: pool
empty, other planets `[2, 3]`, draw index `5` (so destination `3`), the
original destination `3` re-drawable, one co-located ship `8`. -/
theorem C6_empty_bid_requeue_witness :
    ((⟨1, 1, 1, 0, 0, 42⟩ : ItemJson), [2, 3].getD (5 % [2, 3].length) 0)
      ∈ emptyBidRequeue [] ⟨1, 1, 1, 0, 0, 42⟩ [2, 3] 5 ∧
    [2, 3].getD (5 % [2, 3].length) 0 ∈ [2, 3] ∧
    (∃ k2, [2, 3].getD (k2 % [2, 3].length) 0 = 3) ∧
    (cfpPhase 0 (fun p => (p, p)) [8] 4
      ⟨emptyBidRequeue [] ⟨1, 1, 1, 0, 0, 42⟩ [2, 3] 5, [], [], []⟩).1.itemsToShip = [] ∧
    (42 : Nat) ∈ (cfpPhase 0 (fun p => (p, p)) [8] 4
      ⟨emptyBidRequeue [] ⟨1, 1, 1, 0, 0, 42⟩ [2, 3] 5, [], [], []⟩).1.waiting ∧
    ((42 : Nat), (4 : Nat)) ∈ (cfpPhase 0 (fun p => (p, p)) [8] 4
      ⟨emptyBidRequeue [] ⟨1, 1, 1, 0, 0, 42⟩ [2, 3] 5, [], [], []⟩).1.startTimes ∧
    ((42 : Nat), ([] : List Msg)) ∈ (cfpPhase 0 (fun p => (p, p)) [8] 4
      ⟨emptyBidRequeue [] ⟨1, 1, 1, 0, 0, 42⟩ [2, 3] 5, [], [], []⟩).1.proposals ∧
    (∀ sh ∈ [8],
      ({ sender := 0
         recipient := sh
         perf := .callForProposal
         item := ⟨1, 1, 1, 0, 0, 42⟩
         destX := (fun (p : Nat) => ((p : ℚ), (p : ℚ))) ([2, 3].getD (5 % [2, 3].length) 0) |>.1
         destY := (fun (p : Nat) => ((p : ℚ), (p : ℚ))) ([2, 3].getD (5 % [2, 3].length) 0) |>.2
         utility := 0 } : Msg) ∈ (cfpPhase 0 (fun p => (p, p)) [8] 4
        ⟨emptyBidRequeue [] ⟨1, 1, 1, 0, 0, 42⟩ [2, 3] 5, [], [], []⟩).2) :=
  C6_empty_bid_requeue [] ⟨1, 1, 1, 0, 0, 42⟩ [2, 3] 5 3 0 (fun p => (p, p)) [8] 4
    ⟨emptyBidRequeue [] ⟨1, 1, 1, 0, 0, 42⟩ [2, 3] 5, [], [], []⟩
    (by simp) (by simp) rfl

/-- A ship that is not idle (carrying an item, or already awaiting a bid
response) ignores a drained `call_for_proposal`: no branch of lines 213-241
fires, the state and streams are unchanged, nothing is sent. -/
theorem shipHandleMsg_cfp_ignored (s : ShipState) (rq : List ℚ) (ri : List Nat) (m : Msg)
    (hm : m.perf = Perf.callForProposal)
    (h : ¬(s.item = none ∧ s.waitingForProposal = false)) :
    shipHandleMsg s rq ri m = .ok (s, rq, ri, []) := by
  unfold shipHandleMsg
  rw [if_neg (fun hc => h ⟨hc.1, hc.2.2⟩),
    if_neg (fun hc => by rw [hm] at hc; exact Perf.noConfusion hc.2.1),
    if_neg (fun hc => by rw [hm] at hc; exact Perf.noConfusion hc.2.1)]

/-- A ship already awaiting a bid response ignores a whole drained batch of
`call_for_proposal` messages. -/
theorem shipHandleMsgs_waiting_ignores (batch : List Msg) (s : ShipState) (rq : List ℚ)
    (ri : List Nat) (hall : ∀ m ∈ batch, m.perf = Perf.callForProposal)
    (hw : s.waitingForProposal = true) :
    shipHandleMsgs s rq ri batch = .ok (s, rq, ri, []) := by
  induction batch with
  | nil => rfl
  | cons m rest ih =>
    have h1 : shipHandleMsg s rq ri m = .ok (s, rq, ri, []) :=
      shipHandleMsg_cfp_ignored s rq ri m (hall m (List.mem_cons_self m rest))
        (fun hc => by rw [hw] at hc; exact Bool.noConfusion hc.2)
    have h2 := ih (fun m2 hm2 => hall m2 (List.mem_cons_of_mem m hm2))
    simp only [shipHandleMsgs, h1, h2]
    rfl

/-- C7: an idle ship (no carried item, waiting flag clear) that drains a
`call_for_proposal` replies with exactly one proposal, addressed back to
the soliciting planet, whose utility is the dot product of the deserialised
item's three attributes with the ship's three preference weights (equal to
the offered item's own attributes whenever they are truthy), and raises its
awaiting flag; the remaining messages of the same drained batch, all CFPs,
are then ignored, so the whole batch produces exactly that one bid; and a
ship that carries an item or has the flag raised ignores any CFP
entirely. -/
theorem C7_bid_exactly_once (s : ShipState) (rq : List ℚ) (ri : List Nat) (m : Msg)
    (rest : List Msg) (dest : Nat × ℚ × ℚ)
    (hm : m.perf = Perf.callForProposal)
    (hrest : ∀ m2 ∈ rest, m2.perf = Perf.callForProposal)
    (hfind : (s.planets.filter
      (fun p => p.2.1 == m.destX && p.2.2 == m.destY)).getLast? = some dest)
    (hitem : s.item = none) (hw : s.waitingForProposal = false) :
    ∃ out : Msg,
      shipHandleMsg s rq ri m =
        .ok ({ s with potentialDestination := some dest.1, waitingForProposal := true },
          (popQ (popQ (popQ rq).2).2).2, (popNat ri).2, [out]) ∧
      shipHandleMsgs s rq ri (m :: rest) =
        .ok ({ s with potentialDestination := some dest.1, waitingForProposal := true },
          (popQ (popQ (popQ rq).2).2).2, (popNat ri).2, [out]) ∧
      out.perf = Perf.proposal ∧
      out.recipient = m.sender ∧
      out.sender = m.recipient ∧
      out.utility = shipUtility s (itemFromJson m.item (popQ rq).1 (popQ (popQ rq).2).1
        (popQ (popQ (popQ rq).2).2).1 (popNat ri).1) ∧
      (m.item.a ≠ 0 → m.item.b ≠ 0 → m.item.c ≠ 0 →
        out.utility = m.item.a * s.prefA + m.item.b * s.prefB + m.item.c * s.prefC) ∧
      (∀ (s2 : ShipState) (rq2 : List ℚ) (ri2 : List Nat) (m2 : Msg),
        m2.perf = Perf.callForProposal →
        ¬(s2.item = none ∧ s2.waitingForProposal = false) →
        shipHandleMsg s2 rq2 ri2 m2 = .ok (s2, rq2, ri2, [])) := by
  refine ⟨{ sender := m.recipient
            recipient := m.sender
            perf := .proposal
            item := itemToJson (itemFromJson m.item (popQ rq).1 (popQ (popQ rq).2).1
              (popQ (popQ (popQ rq).2).2).1 (popNat ri).1)
            destX := m.destX
            destY := m.destY
            utility := shipUtility s (itemFromJson m.item (popQ rq).1 (popQ (popQ rq).2).1
              (popQ (popQ (popQ rq).2).2).1 (popNat ri).1) }, ?_, ?_, rfl, rfl, rfl, rfl, ?_, ?_⟩
  case refine_1 =>
    unfold shipHandleMsg
    rw [if_pos ⟨hitem, hm, hw⟩]
    rw [hfind]
  case refine_2 =>
    have h1 : shipHandleMsg s rq ri m =
        .ok ({ s with potentialDestination := some dest.1, waitingForProposal := true },
          (popQ (popQ (popQ rq).2).2).2, (popNat ri).2,
          [{ sender := m.recipient
             recipient := m.sender
             perf := Perf.proposal
             item := itemToJson (itemFromJson m.item (popQ rq).1 (popQ (popQ rq).2).1
               (popQ (popQ (popQ rq).2).2).1 (popNat ri).1)
             destX := m.destX
             destY := m.destY
             utility := shipUtility s (itemFromJson m.item (popQ rq).1 (popQ (popQ rq).2).1
               (popQ (popQ (popQ rq).2).2).1 (popNat ri).1) }]) := by
      unfold shipHandleMsg
      rw [if_pos ⟨hitem, hm, hw⟩, hfind]
    simp only [shipHandleMsgs, h1]
    rw [shipHandleMsgs_waiting_ignores rest
      ({ s with potentialDestination := some dest.1, waitingForProposal := true })
      ((popQ (popQ (popQ rq).2).2).2) ((popNat ri).2) hrest rfl]
    rfl
  case refine_3 =>
    intro ha hb hc
    simp only [shipUtility, itemFromJson, mkItem, optFalsy, optFalsyNat, Option.getD_some,
      beq_iff_eq, ha, hb, hc, if_false]
  case refine_4 =>
    intro s2 rq2 ri2 m2 hm2 hni
    exact shipHandleMsg_cfp_ignored s2 rq2 ri2 m2 hm2 hni

/-- C7 witness: the bidding contract evaluated for a concrete idle ship
with one known planet at `(10, 20)` and a single drained CFP. -/
theorem C7_bid_exactly_once_witness :
    ∃ out : Msg,
      shipHandleMsg ⟨9, 2, 3, 5, [(1, 10, 20)], none, none, none, false⟩ [] []
          ⟨4, 9, .callForProposal, ⟨1, 1, 2, 0, 0, 42⟩, 10, 20, 0⟩ =
        .ok ({ (⟨9, 2, 3, 5, [(1, 10, 20)], none, none, none, false⟩ : ShipState) with
            potentialDestination := some ((1 : Nat), (10 : ℚ), (20 : ℚ)).1
            waitingForProposal := true },
          (popQ (popQ (popQ []).2).2).2, (popNat []).2, [out]) ∧
      shipHandleMsgs ⟨9, 2, 3, 5, [(1, 10, 20)], none, none, none, false⟩ [] []
          [⟨4, 9, .callForProposal, ⟨1, 1, 2, 0, 0, 42⟩, 10, 20, 0⟩] =
        .ok ({ (⟨9, 2, 3, 5, [(1, 10, 20)], none, none, none, false⟩ : ShipState) with
            potentialDestination := some ((1 : Nat), (10 : ℚ), (20 : ℚ)).1
            waitingForProposal := true },
          (popQ (popQ (popQ []).2).2).2, (popNat []).2, [out]) ∧
      out.perf = Perf.proposal ∧
      out.recipient = (⟨4, 9, .callForProposal, ⟨1, 1, 2, 0, 0, 42⟩, 10, 20, 0⟩ : Msg).sender ∧
      out.sender = (⟨4, 9, .callForProposal, ⟨1, 1, 2, 0, 0, 42⟩, 10, 20, 0⟩ : Msg).recipient ∧
      out.utility = shipUtility ⟨9, 2, 3, 5, [(1, 10, 20)], none, none, none, false⟩
        (itemFromJson ⟨1, 1, 2, 0, 0, 42⟩ (popQ []).1 (popQ (popQ []).2).1
          (popQ (popQ (popQ []).2).2).1 (popNat []).1) ∧
      ((⟨1, 1, 2, 0, 0, 42⟩ : ItemJson).a ≠ 0 → (⟨1, 1, 2, 0, 0, 42⟩ : ItemJson).b ≠ 0 →
        (⟨1, 1, 2, 0, 0, 42⟩ : ItemJson).c ≠ 0 →
        out.utility = (⟨1, 1, 2, 0, 0, 42⟩ : ItemJson).a *
            (⟨9, 2, 3, 5, [(1, 10, 20)], none, none, none, false⟩ : ShipState).prefA +
          (⟨1, 1, 2, 0, 0, 42⟩ : ItemJson).b *
            (⟨9, 2, 3, 5, [(1, 10, 20)], none, none, none, false⟩ : ShipState).prefB +
          (⟨1, 1, 2, 0, 0, 42⟩ : ItemJson).c *
            (⟨9, 2, 3, 5, [(1, 10, 20)], none, none, none, false⟩ : ShipState).prefC) ∧
      (∀ (s2 : ShipState) (rq2 : List ℚ) (ri2 : List Nat) (m2 : Msg),
        m2.perf = Perf.callForProposal →
        ¬(s2.item = none ∧ s2.waitingForProposal = false) →
        shipHandleMsg s2 rq2 ri2 m2 = .ok (s2, rq2, ri2, [])) :=
  C7_bid_exactly_once ⟨9, 2, 3, 5, [(1, 10, 20)], none, none, none, false⟩ [] []
    ⟨4, 9, .callForProposal, ⟨1, 1, 2, 0, 0, 42⟩, 10, 20, 0⟩ [] (1, 10, 20)
    rfl (by simp) (by decide) rfl rfl

/-- `list.remove` by uid succeeds, dropping exactly one element, whenever
some element carries the uid. -/
theorem removeFirstByUid_mem (l : List Item) (uid : Nat) (h : uid ∈ l.map Item.uid) :
    ∃ l2, removeFirstByUid l uid = .ok l2 ∧ l2.length + 1 = l.length := by
  induction l with
  | nil => simp at h
  | cons it rest ih =>
    by_cases hit : it.uid = uid
    · exact ⟨rest, by simp [removeFirstByUid, hit], by simp⟩
    · have hmem : uid ∈ rest.map Item.uid := by
        simp only [List.map_cons, List.mem_cons] at h
        rcases h with h | h
        · exact absurd h.symm hit
        · exact h
      obtain ⟨l2, hl2, hlen⟩ := ih hmem
      refine ⟨it :: l2, ?_, by simpa using hlen⟩
      simp [removeFirstByUid, hit, hl2, Except.map]

/-- C8: when a carrying ship's post-move position equals its waypoint's
coordinates and that waypoint is the destination, the ship delivers: the
carried item's uid is removed from the world's item list (one element
dropped, matched by uid), the delivered counter rises by exactly one, the
ship's item, destination and waypoint become `None`, its previous point
becomes the destination planet, and its preference weights, max speed and
every other agent's state are unchanged. -/
theorem C8_delivery_frame (α : Type) (pos : Nat → ℚ × ℚ) (nextHop : Nat → Nat)
    (s : ShipNav) (w : World α) (newX newY : ℚ) (wp : Nat) (it : Item)
    (hwp : s.waypoint = some wp) (hitem : s.item = some it)
    (hdest : s.destination = some wp) (hpos : (newX, newY) = pos wp)
    (hin : it.uid ∈ w.items.map Item.uid) :
    ∃ items2,
      removeFirstByUid w.items it.uid = .ok items2 ∧
      shipMoveBlock pos nextHop s w newX newY =
        .ok (⟨newX, newY, s.prefA, s.prefB, s.prefC, s.maxSpeed, wp, none, none, none⟩,
          ⟨items2, w.computedItemsNb + 1, w.others⟩) ∧
      items2.length + 1 = w.items.length := by
  obtain ⟨items2, hrem, hlen⟩ := removeFirstByUid_mem w.items it.uid hin
  refine ⟨items2, hrem, ?_, hlen⟩
  simp only [shipMoveBlock, hwp, hitem]
  rw [if_pos hpos, if_pos hdest, hrem]

/-- C8 witness: a concrete delivery - ship at waypoint `8 = (8, 8)` which
is its destination, carrying the copy of item `42`, world holding the
original item `42`. -/
theorem C8_delivery_frame_witness :
    ∃ items2,
      removeFirstByUid [⟨1, 1, 1, 3, 3, 42⟩] (Item.uid ⟨1, 1, 1, 0, 0, 42⟩) = .ok items2 ∧
      shipMoveBlock (fun p => ((p : ℚ), (p : ℚ))) (fun p => p)
          ⟨0, 0, 2, 3, 5, 60, 7, some 8, some 8, some ⟨1, 1, 1, 0, 0, 42⟩⟩
          ⟨[⟨1, 1, 1, 3, 3, 42⟩], 11, ()⟩ 8 8 =
        .ok (⟨8, 8, 2, 3, 5, 60, 8, none, none, none⟩, ⟨items2, 11 + 1, ()⟩) ∧
      items2.length + 1 = [(⟨1, 1, 1, 3, 3, 42⟩ : Item)].length :=
  C8_delivery_frame Unit (fun p => ((p : ℚ), (p : ℚ))) (fun p => p)
    ⟨0, 0, 2, 3, 5, 60, 7, some 8, some 8, some ⟨1, 1, 1, 0, 0, 42⟩⟩
    ⟨[⟨1, 1, 1, 3, 3, 42⟩], 11, ()⟩ 8 8 8 ⟨1, 1, 1, 0, 0, 42⟩
    rfl rfl rfl (by norm_num) (by simp)

/-- The breadth step only grows the set. -/
theorem mem_expandReach_left (n : Nat) (edges : List (Nat × Nat)) (s : List Nat)
    (v : Nat) (h : v ∈ s) : v ∈ expandReach n edges s :=
  List.mem_append_left _ h

/-- Iterating the breadth step only grows the set. -/
theorem mem_iterReach_of_mem (n : Nat) (edges : List (Nat × Nat)) :
    ∀ (f : Nat) (s : List Nat) (v : Nat), v ∈ s → v ∈ iterReach n edges f s := by
  intro f
  induction f with
  | zero => intro s v h; exact h
  | succ f2 ih =>
    intro s v h
    exact ih (expandReach n edges s) v (mem_expandReach_left n edges s v h)

/-- Unpacking membership in the breadth step's new-vertex filter. -/
theorem mem_expandReach_filter (n : Nat) (edges : List (Nat × Nat)) (s : List Nat)
    (v : Nat)
    (h : v ∈ (List.range n).filter
      (fun v => !s.contains v && s.any (fun u => adjB edges u v))) :
    v < n ∧ v ∉ s ∧ ∃ u ∈ s, adjB edges u v = true := by
  obtain ⟨hr, hp⟩ := List.mem_filter.mp h
  rw [Bool.and_eq_true, Bool.not_eq_true'] at hp
  refine ⟨List.mem_range.mp hr, ?_, ?_⟩
  · intro hv
    have hct : s.contains v = true := List.elem_iff.mpr hv
    rw [hp.1] at hct
    exact Bool.noConfusion hct
  · obtain ⟨u, hu, hadj⟩ := List.any_eq_true.mp hp.2
    exact ⟨u, hu, hadj⟩

/-- The breadth step preserves distinctness and boundedness. -/
theorem expandReach_nodup_bounded (n : Nat) (edges : List (Nat × Nat)) (s : List Nat)
    (h1 : s.Nodup) (h2 : ∀ v ∈ s, v < n) :
    (expandReach n edges s).Nodup ∧ ∀ v ∈ expandReach n edges s, v < n := by
  constructor
  · refine h1.append ((List.nodup_range n).filter _) ?_
    intro a ha hafil
    exact (mem_expandReach_filter n edges s a hafil).2.1 ha
  · intro v hv
    rcases List.mem_append.mp hv with hv | hv
    · exact h2 v hv
    · exact (mem_expandReach_filter n edges s v hv).1

/-- The iterated breadth step preserves distinctness and boundedness. -/
theorem iterReach_nodup_bounded (n : Nat) (edges : List (Nat × Nat)) :
    ∀ (f : Nat) (s : List Nat), s.Nodup → (∀ v ∈ s, v < n) →
    (iterReach n edges f s).Nodup ∧ ∀ v ∈ iterReach n edges f s, v < n := by
  intro f
  induction f with
  | zero => intro s h1 h2; exact ⟨h1, h2⟩
  | succ f2 ih =>
    intro s h1 h2
    obtain ⟨g1, g2⟩ := expandReach_nodup_bounded n edges s h1 h2
    exact ih (expandReach n edges s) g1 g2

/-- A distinct list of vertices below `n` has at most `n` entries. -/
theorem nodup_bounded_length (n : Nat) (s : List Nat) (h1 : s.Nodup)
    (h2 : ∀ v ∈ s, v < n) : s.length ≤ n := by
  calc s.length = s.toFinset.card := (List.toFinset_card_of_nodup h1).symm
    _ ≤ (Finset.range n).card := Finset.card_le_card (fun v hv =>
        Finset.mem_range.mpr (h2 v (List.mem_toFinset.mp hv)))
    _ = n := Finset.card_range n

/-- A fixed point of the breadth step is closed under adjacency (towards
vertices below `n`). -/
theorem expandReach_fixed_closed (n : Nat) (edges : List (Nat × Nat)) (s : List Nat)
    (h : expandReach n edges s = s) :
    ∀ u ∈ s, ∀ v, v < n → adjB edges u v = true → v ∈ s := by
  intro u hu v hv hadj
  by_contra hvs
  have hmem : v ∈ (List.range n).filter
      (fun v => !s.contains v && s.any (fun u => adjB edges u v)) := by
    rw [List.mem_filter]
    refine ⟨List.mem_range.mpr hv, ?_⟩
    rw [Bool.and_eq_true, Bool.not_eq_true']
    constructor
    · rw [Bool.eq_false_iff]
      intro hc
      exact hvs (List.elem_iff.mp hc)
    · exact List.any_eq_true.mpr ⟨u, hu, hadj⟩
  have hnil : (List.range n).filter
      (fun v => !s.contains v && s.any (fun u => adjB edges u v)) = [] :=
    List.append_right_eq_self.mp h
  rw [hnil] at hmem
  exact List.not_mem_nil v hmem

/-- Iterating from a fixed point of the breadth step changes nothing. -/
theorem iterReach_fixed (n : Nat) (edges : List (Nat × Nat)) (s : List Nat)
    (h : expandReach n edges s = s) : ∀ f, iterReach n edges f s = s := by
  intro f
  induction f with
  | zero => rfl
  | succ f2 ih => simpa only [iterReach, h] using ih

/-- With enough fuel relative to the current size, the iterated breadth
step saturates: its result is closed under adjacency. -/
theorem iterReach_closed (n : Nat) (edges : List (Nat × Nat)) :
    ∀ (f : Nat) (s : List Nat), s.Nodup → (∀ v ∈ s, v < n) →
    n + 1 ≤ s.length + f →
    ∀ u ∈ iterReach n edges f s, ∀ v, v < n → adjB edges u v = true →
      v ∈ iterReach n edges f s := by
  intro f
  induction f with
  | zero =>
    intro s h1 h2 hfuel
    have := nodup_bounded_length n s h1 h2
    omega
  | succ f2 ih =>
    intro s h1 h2 hfuel
    by_cases hfix : expandReach n edges s = s
    · have hres : iterReach n edges (f2 + 1) s = s := by
        simp only [iterReach, hfix]
        exact iterReach_fixed n edges s hfix f2
      rw [hres]
      exact expandReach_fixed_closed n edges s hfix
    · obtain ⟨g1, g2⟩ := expandReach_nodup_bounded n edges s h1 h2
      have hgrow : s.length + 1 ≤ (expandReach n edges s).length := by
        have hlen : (expandReach n edges s).length = s.length +
            ((List.range n).filter
              (fun v => !s.contains v && s.any (fun u => adjB edges u v))).length := by
          simp [expandReach]
        have hne : ((List.range n).filter
            (fun v => !s.contains v && s.any (fun u => adjB edges u v))).length ≠ 0 := by
          intro hc
          apply hfix
          have hfil : (List.range n).filter
              (fun v => !s.contains v && s.any (fun u => adjB edges u v)) = [] :=
            List.length_eq_zero.mp hc
          rw [expandReach, hfil, List.append_nil]
        omega
      have := ih (expandReach n edges s) g1 g2 (by omega)
      simpa only [iterReach] using this

/-- Soundness of the bounded closure: everything it contains is reachable
from some seed vertex. -/
theorem iterReach_sound (n : Nat) (edges : List (Nat × Nat)) :
    ∀ (f : Nat) (s : List Nat) (v : Nat), v ∈ iterReach n edges f s →
    ∃ u ∈ s, Reaches edges u v := by
  intro f
  induction f with
  | zero =>
    intro s v hv
    exact ⟨v, hv, Relation.ReflTransGen.refl⟩
  | succ f2 ih =>
    intro s v hv
    obtain ⟨u, hu, hr⟩ := ih (expandReach n edges s) v hv
    rcases List.mem_append.mp hu with hu | hu
    · exact ⟨u, hu, hr⟩
    · obtain ⟨_, _, w, hw, hadj⟩ := mem_expandReach_filter n edges s u hu
      exact ⟨w, hw, Relation.ReflTransGen.head hadj hr⟩

/-- Adjacent vertices of a bounded edge list are planet indices. -/
theorem adjB_endpoints (n : Nat) (edges : List (Nat × Nat)) (u v : Nat)
    (hb : edgesBounded n edges) (h : adjB edges u v = true) : u < n ∧ v < n := by
  obtain ⟨e, he, hcase⟩ := List.any_eq_true.mp h
  rw [Bool.or_eq_true, Bool.and_eq_true, Bool.and_eq_true] at hcase
  obtain ⟨h1, h2⟩ := hb e he
  rcases hcase with ⟨ha, hb2⟩ | ⟨ha, hb2⟩
  · rw [← beq_iff_eq.mp ha, ← beq_iff_eq.mp hb2]
    exact ⟨h1, h2⟩
  · rw [← beq_iff_eq.mp ha, ← beq_iff_eq.mp hb2]
    exact ⟨h2, h1⟩

/-- Completeness of the component of `0`: with fuel `n`, every vertex
reachable from `0` in a bounded edge list is collected. -/
theorem reachFrom0_complete (n : Nat) (edges : List (Nat × Nat))
    (hb : edgesBounded n edges) (_hn : 0 < n) (v : Nat) (hv : v < n)
    (hr : Reaches edges 0 v) : v ∈ reachFrom0 n edges := by
  have hclosed := iterReach_closed n edges n [0] (List.nodup_singleton 0)
    (by intro w hw; simp at hw; omega) (by simp only [List.length_singleton]; omega)
  have h0 : 0 ∈ reachFrom0 n edges :=
    mem_iterReach_of_mem n edges n [0] 0 (List.mem_singleton.mpr rfl)
  revert hv
  induction hr with
  | refl => intro _; exact h0
  | tail hsteps hstep ih =>
    intro hv
    rename_i b c
    have hbn : b < n := (adjB_endpoints n edges b c hb hstep).1
    exact hclosed b (ih hbn) c hv hstep

/-- Soundness of the connectivity check: when it returns `true`, every
vertex is reachable from planet `0`. -/
theorem isConnected_sound (n : Nat) (edges : List (Nat × Nat))
    (h : isConnected n edges = true) (v : Nat) (hv : v < n) : Reaches edges 0 v := by
  have hall := List.all_eq_true.mp h v (List.mem_range.mpr hv)
  have hvmem : v ∈ reachFrom0 n edges := List.elem_iff.mp hall
  obtain ⟨u, hu, hr⟩ := iterReach_sound n edges n [0] v hvmem
  rw [List.mem_singleton.mp hu] at hr
  exact hr

/-- When the component of `0` has full size, the connectivity check
succeeds. -/
theorem isConnected_of_full (n : Nat) (edges : List (Nat × Nat)) (hn : 0 < n)
    (h : n ≤ (reachFrom0 n edges).length) : isConnected n edges = true := by
  obtain ⟨hnd0, hbd0⟩ := iterReach_nodup_bounded n edges n [0] (List.nodup_singleton 0)
    (by intro w hw; simp at hw; omega)
  have hnd : (reachFrom0 n edges).Nodup := hnd0
  have hbd : ∀ v ∈ reachFrom0 n edges, v < n := hbd0
  have hsub : (reachFrom0 n edges).toFinset ⊆ Finset.range n := by
    intro v hv
    exact Finset.mem_range.mpr (hbd v (List.mem_toFinset.mp hv))
  have hcard : (Finset.range n).card ≤ (reachFrom0 n edges).toFinset.card := by
    rw [Finset.card_range, List.toFinset_card_of_nodup hnd]
    exact h
  have heq : (reachFrom0 n edges).toFinset = Finset.range n :=
    Finset.eq_of_subset_of_card_le hsub hcard
  refine List.all_eq_true.mpr ?_
  intro v hv
  refine List.elem_iff.mpr ?_
  have : v ∈ (reachFrom0 n edges).toFinset := by
    rw [heq]
    exact Finset.mem_range.mpr (List.mem_range.mp hv)
  exact List.mem_toFinset.mp this

/-- Adding an edge can only extend adjacency. -/
theorem adjB_mono_cons (e : Nat × Nat) (edges : List (Nat × Nat)) (u v : Nat)
    (h : adjB edges u v = true) : adjB (e :: edges) u v = true := by
  rw [adjB, List.any_cons, Bool.or_eq_true]
  exact Or.inr h

/-- Adding an edge can only extend reachability. -/
theorem Reaches_mono_cons (e : Nat × Nat) (edges : List (Nat × Nat)) (u v : Nat)
    (h : Reaches edges u v) : Reaches (e :: edges) u v :=
  Relation.ReflTransGen.mono (fun x y hxy => adjB_mono_cons e edges x y hxy) h

/-- Adding an edge from inside the component of `0` to a vertex outside it
strictly grows that component. -/
theorem reachFrom0_grow (n : Nat) (edges : List (Nat × Nat)) (hb : edgesBounded n edges)
    (hn : 0 < n) (u v : Nat) (hu : u ∈ reachFrom0 n edges)
    (hv : v ∉ reachFrom0 n edges) (hun : u < n) (hvn : v < n) :
    (reachFrom0 n edges).length < (reachFrom0 n ((u, v) :: edges)).length := by
  have hb2 : edgesBounded n ((u, v) :: edges) := by
    intro e he
    rcases List.mem_cons.mp he with rfl | he
    · exact ⟨hun, hvn⟩
    · exact hb e he
  obtain ⟨hnd, hbd⟩ := iterReach_nodup_bounded n edges n [0] (List.nodup_singleton 0)
    (by intro w hw; simp at hw; omega)
  obtain ⟨hnd2, _⟩ := iterReach_nodup_bounded n ((u, v) :: edges) n [0]
    (List.nodup_singleton 0) (by intro w hw; simp at hw; omega)
  have hsub : ∀ w ∈ reachFrom0 n edges, w ∈ reachFrom0 n ((u, v) :: edges) := by
    intro w hw
    obtain ⟨u0, hu0, hr⟩ := iterReach_sound n edges n [0] w hw
    rw [List.mem_singleton.mp hu0] at hr
    exact reachFrom0_complete n ((u, v) :: edges) hb2 hn w (hbd w hw)
      (Reaches_mono_cons (u, v) edges 0 w hr)
  have hv2 : v ∈ reachFrom0 n ((u, v) :: edges) := by
    obtain ⟨u0, hu0, hr⟩ := iterReach_sound n edges n [0] u hu
    rw [List.mem_singleton.mp hu0] at hr
    have hadj : adjB ((u, v) :: edges) u v = true := by
      rw [adjB, List.any_cons, Bool.or_eq_true]
      left
      simp
    exact reachFrom0_complete n ((u, v) :: edges) hb2 hn v hvn
      (Relation.ReflTransGen.tail (Reaches_mono_cons (u, v) edges 0 u hr) hadj)
  have hfin : insert v (reachFrom0 n edges).toFinset ⊆
      (reachFrom0 n ((u, v) :: edges)).toFinset := by
    refine Finset.insert_subset (List.mem_toFinset.mpr hv2) ?_
    intro w hw
    exact List.mem_toFinset.mpr (hsub w (List.mem_toFinset.mp hw))
  have hvnotin : v ∉ (reachFrom0 n edges).toFinset := by
    intro hc
    exact hv (List.mem_toFinset.mp hc)
  calc (reachFrom0 n edges).length
      = (reachFrom0 n edges).toFinset.card := (List.toFinset_card_of_nodup hnd).symm
    _ < (insert v (reachFrom0 n edges).toFinset).card := by
        rw [Finset.card_insert_of_not_mem hvnotin]
        omega
    _ ≤ (reachFrom0 n ((u, v) :: edges)).toFinset.card := Finset.card_le_card hfin
    _ = (reachFrom0 n ((u, v) :: edges)).length := List.toFinset_card_of_nodup hnd2

/-- The reconnection loop of lines 422-426 reaches a connected graph when
given fuel covering the remaining vertices: each iteration on a
disconnected graph joins the component of planet `0` to a vertex outside
it, strictly growing that component. -/
theorem reconnect_connected (n : Nat) (choose : List (Nat × Nat) → Nat × Nat)
    (hc : ChooseOk n choose) (hn : 0 < n) :
    ∀ (fuel : Nat) (edges : List (Nat × Nat)), edgesBounded n edges →
    n ≤ (reachFrom0 n edges).length + fuel →
    isConnected n (reconnect n choose fuel edges) = true := by
  intro fuel
  induction fuel with
  | zero =>
    intro edges hb hlen
    simp only [reconnect]
    exact isConnected_of_full n edges hn (by omega)
  | succ f ih =>
    intro edges hb hlen
    by_cases hcon : isConnected n edges = true
    · simp only [reconnect]
      rw [if_pos hcon]
      exact hcon
    · have hcf : isConnected n edges = false := by
        simpa using hcon
      obtain ⟨h1, h2, h3, h4⟩ := hc edges hcf
      have hb2 : edgesBounded n (choose edges :: edges) := by
        intro e he
        rcases List.mem_cons.mp he with rfl | he
        · exact ⟨h3, h4⟩
        · exact hb e he
      have hgrow := reachFrom0_grow n edges hb hn (choose edges).1 (choose edges).2
        h1 h2 h3 h4
      rw [Prod.mk.eta] at hgrow
      simp only [reconnect]
      rw [if_neg hcon]
      exact ih (choose edges :: edges) hb2 (by omega)

/-- C5: for every planet count at least 1, every Bernoulli edge-draw
outcome (any bounded edge list, whatever the branching factor produced)
and every admissible pair of `random.choice` outcomes, the constructor's
reconnection loop terminates within `n` added edges in a graph with
exactly one connected component (every planet reachable from planet `0`,
and the executable one-component check succeeds); and the graph stays
connected for the whole run, because the per-tick mutation rewrites only
speed multipliers and never removes an edge. -/
theorem C5_construction_connected (n : Nat) (startEdges : List (Nat × Nat))
    (choose : List (Nat × Nat) → Nat × Nat)
    (ticks : List ((Nat → Bool) × (Nat → Nat))) (dist sm : Nat × Nat → ℚ)
    (hn : 1 ≤ n) (hb : edgesBounded n startEdges) (hc : ChooseOk n choose) :
    isConnected n (roadGraphEdges n choose startEdges) = true ∧
    (∀ v, v < n → Reaches (roadGraphEdges n choose startEdges) 0 v) ∧
    (runTicks ticks ⟨roadGraphEdges n choose startEdges, dist, sm⟩).edges =
      roadGraphEdges n choose startEdges ∧
    (∀ v, v < n →
      Reaches ((runTicks ticks
        ⟨roadGraphEdges n choose startEdges, dist, sm⟩).edges) 0 v) := by
  have hn0 : 0 < n := hn
  have hcon : isConnected n (roadGraphEdges n choose startEdges) = true :=
    reconnect_connected n choose hc hn0 n startEdges hb (by
      have h0 : 0 ∈ reachFrom0 n startEdges :=
        mem_iterReach_of_mem n startEdges n [0] 0 (List.mem_singleton.mpr rfl)
      have : 0 < (reachFrom0 n startEdges).length := List.length_pos.mpr (by
        intro hc2
        rw [hc2] at h0
        exact List.not_mem_nil 0 h0)
      omega)
  refine ⟨hcon, fun v hv => isConnected_sound n _ hcon v hv,
    runTicks_edges ticks _, ?_⟩
  intro v hv
  rw [runTicks_edges]
  exact isConnected_sound n _ hcon v hv

/-- A concrete admissible choice oracle for two planets: it always proposes
the edge `(0, 1)`, valid because on a disconnected two-vertex graph planet
`1` is exactly the vertex outside the component of planet `0`. -/
theorem chooseOk_const01 : ChooseOk 2 (fun _ => (0, 1)) := by
  intro edges hfalse
  refine ⟨mem_iterReach_of_mem 2 edges 2 [0] 0 (List.mem_singleton.mpr rfl),
    ?_, by norm_num, by norm_num⟩
  intro hmem
  have hcon : isConnected 2 edges = true := by
    refine List.all_eq_true.mpr ?_
    intro v hv
    refine List.elem_iff.mpr ?_
    have hv2 := List.mem_range.mp hv
    interval_cases v
    · exact mem_iterReach_of_mem 2 edges 2 [0] 0 (List.mem_singleton.mpr rfl)
    · exact hmem
  rw [hcon] at hfalse
  exact Bool.noConfusion hfalse

/-- C5 witness: the construction contract evaluated for two planets, an
empty Bernoulli draw and the concrete choice oracle, followed by an empty
run. -/
theorem C5_construction_connected_witness :
    isConnected 2 (roadGraphEdges 2 (fun _ => (0, 1)) []) = true ∧
    (∀ v, v < 2 → Reaches (roadGraphEdges 2 (fun _ => (0, 1)) []) 0 v) ∧
    (runTicks [] ⟨roadGraphEdges 2 (fun _ => (0, 1)) [], fun _ => 1, fun _ => 1⟩).edges =
      roadGraphEdges 2 (fun _ => (0, 1)) [] ∧
    (∀ v, v < 2 →
      Reaches ((runTicks []
        ⟨roadGraphEdges 2 (fun _ => (0, 1)) [], fun _ => 1, fun _ => 1⟩).edges) 0 v) :=
  C5_construction_connected 2 [] (fun _ => (0, 1)) [] (fun _ => 1) (fun _ => 1)
    (by omega) (by intro e he; exact absurd he (List.not_mem_nil e)) chooseOk_const01
